import Mathlib

/-!
Verification of the room/peer registry, relay routing and liveness monitoring
of the WebRTC signaling server in `src/app.py`.

The Python module keeps five global dictionaries keyed by room id:
`rooms` (room id -> list of websockets), `room_peer_ids` (room id -> list of
assigned peer ids, index-aligned with `rooms`), `room_peer_states`
(room id -> dict peer id -> state string), `room_peer_last_heartbeat`
(room id -> dict peer id -> timestamp) and `next_peer_id` (room id -> counter).

We embed dictionaries as association lists with Python-dict semantics
(`aset` updates the first matching key in place or appends, `apop` removes the
first matching key, `afind` looks up the first matching key), websocket
handles as natural numbers, and timestamps as natural numbers.  Every
registry operation of the source becomes a pure function from state to state
together with the list of frames it sends (and connections it closes).

The source guards the registry with a single non-reentrant `asyncio.Lock`
(`room_lock`, line 20), and several operations re-acquire it while already
holding it: `relay_message` (holding from line 136) awaits
`update_peer_state` (acquires at line 127), `broadcast_to_room` (line 230)
and `send_to_peer` (line 244); `remove_client_from_room` (holding from line
73) awaits `notify_peer_disconnection`, which calls `broadcast_to_room`;
and `check_connection_health` (holding from line 263) awaits
`remove_client_from_room`.  Each such call deadlocks.  The embedding makes
this explicit: every operation that can wedge returns, besides the state
mutated and the frames sent before the hang, a completion flag (`Bool`, or
`TickExit` for the liveness tick) that is `false`/`TickExit.hung` on the
deadlocking paths — and on those paths nothing is delivered.
-/

namespace SignalSrv


/-- Lookup of the first binding of key `k` in an association list
(Python `d[k]` / `d.get(k)`). -/
def afind {κ α : Type} [DecidableEq κ] (k : κ) : List (κ × α) → Option α
  | [] => none
  | p :: t => if p.1 = k then some p.2 else afind k t

/-- Assignment `d[k] = v` with Python-dict semantics: replace the first
binding of `k` in place, or append a new binding at the end. -/
def aset {κ α : Type} [DecidableEq κ] (k : κ) (v : α) : List (κ × α) → List (κ × α)
  | [] => [(k, v)]
  | p :: t => if p.1 = k then (k, v) :: t else p :: aset k v t

/-- Removal `d.pop(k, None)` / `del d[k]` with Python-dict semantics:
drop the first binding of `k` (a no-op when `k` is absent). -/
def apop {κ α : Type} [DecidableEq κ] (k : κ) : List (κ × α) → List (κ × α)
  | [] => []
  | p :: t => if p.1 = k then t else p :: apop k t

/-- The list of keys of an association list (Python `d.keys()`). -/
def akeys {κ α : Type} : List (κ × α) → List κ := List.map Prod.fst

/-- Index of the first occurrence of `a` in `l` (Python `list.index`),
`none` when absent. -/
def idxOf {α : Type} [DecidableEq α] (a : α) : List α → Option Nat
  | [] => none
  | b :: t => if b = a then some 0 else (idxOf a t).map (· + 1)

/-- Inbound frames handed to `relay_message`.  A frame is either a JSON
object (we keep the fields the source inspects: `msg_data.get("type")`,
`original_message.get("to_peer_id")`, and an opaque remainder), a valid JSON
value that is not an object (on which `msg_data.get` raises, aborting the
relay), or text that is not JSON at all (`json.JSONDecodeError` branch). -/
inductive Inbound : Type
  | obj (ty : Option String) (toPeer : Option Nat) (rest : String)
  | nonObj
  | raw (text : String)
deriving Repr, DecidableEq

/-- Outbound frames produced by the server, mirroring the JSON payloads the
source builds (`welcome`, the ROOM_FULL `error`, `peer_list`, `peer_update`,
`peer_disconnected`, relayed payloads with the injected `from_peer_id`, and
relayed raw text). -/
inductive Outbound : Type
  | welcome (peer_id : Nat) (room_id : String)
  | errorMsg (code msg : String)
  | peerList (peers : List (Nat × String))
  | peerUpdate (aty : Option String) (ato : Option Nat) (arest : String)
      (peers : List (Nat × String))
  | peerDisconnected (peer_id : Nat)
  | relayedObj (ty : Option String) (toPeer : Option Nat) (rest : String)
      (fromPeer : Option Nat)
  | relayedRaw (text : String)
  | hostLeft
deriving Repr, DecidableEq

/-- Observable actions on a websocket handle: a frame sent to it, or the
server force-closing it. -/
inductive Event : Type
  | sent (ws : Nat) (msg : Outbound)
  | closed (ws : Nat)
deriving Repr, DecidableEq

/-- The five module-level dictionaries of `src/app.py` lines 13-19, with
websocket handles and timestamps embedded as naturals. -/
structure ServerState : Type where
  rooms : List (String × List Nat)
  room_peer_ids : List (String × List Nat)
  room_peer_states : List (String × List (Nat × String))
  room_peer_last_heartbeat : List (String × List (Nat × Nat))
  next_peer_id : List (String × Nat)
deriving Repr, DecidableEq

/-- The state at module load: every dictionary empty. -/
def initState : ServerState := ⟨[], [], [], [], []⟩

/-- Room creation block of `add_client_to_room` (lines 41-46): install empty
entries in all five dictionaries and start the id counter at 1. -/
def initRoomMaps (room_id : String) (s : ServerState) : ServerState :=
  { rooms := aset room_id [] s.rooms,
    room_peer_ids := aset room_id [] s.room_peer_ids,
    room_peer_states := aset room_id [] s.room_peer_states,
    room_peer_last_heartbeat := aset room_id [] s.room_peer_last_heartbeat,
    next_peer_id := aset room_id 1 s.next_peer_id }

/-- Translation of `add_client_to_room` (lines 37-68).  Creates the room if
absent, rejects with `None` when the room already holds 4 clients, and
otherwise assigns `next_peer_id`, appends the id and the websocket at
matching indices, records state "connecting" and a fresh heartbeat, and
bumps the counter.  A `KeyError` on a missing dictionary entry is caught by
the enclosing `except`, which returns `None` with the mutations made so
far kept (those branches are unreachable from reachable states). -/
def addClientToRoom (s : ServerState) (room_id : String) (ws : Nat)
    (now : Nat) : ServerState × Option Nat :=
  let s1 := if (afind room_id s.rooms).isSome then s else initRoomMaps room_id s
  match afind room_id s1.rooms with
  | none => (s1, none)
  | some clients =>
    if 4 ≤ clients.length then (s1, none)
    else
      match afind room_id s1.next_peer_id with
      | none => (s1, none)
      | some assigned =>
        match afind room_id s1.room_peer_ids with
        | none => (s1, none)
        | some ids =>
          let s2 := { s1 with
            room_peer_ids := aset room_id (ids ++ [assigned]) s1.room_peer_ids }
          match afind room_id s2.room_peer_states with
          | none => (s2, none)
          | some stm =>
            let s3 := { s2 with room_peer_states := aset room_id (aset assigned "connecting" stm) s2.room_peer_states }
            match afind room_id s3.room_peer_last_heartbeat with
            | none => (s3, none)
            | some hbm =>
              let s4 := { s3 with room_peer_last_heartbeat := aset room_id (aset assigned now hbm) s3.room_peer_last_heartbeat }
              let s5 := { s4 with next_peer_id := aset room_id (assigned + 1) s4.next_peer_id }
              let s6 := { s5 with rooms := aset room_id (clients ++ [ws]) s5.rooms }
              (s6, some assigned)

/-- Deletion of every per-room entry, as in the cleanup block of
`remove_client_from_room` (lines 98-107): each `del` is guarded by a
membership test, which `apop` reproduces (no-op on an absent key). -/
def eraseRoomAll (room_id : String) (s : ServerState) : ServerState :=
  { rooms := apop room_id s.rooms,
    room_peer_ids := apop room_id s.room_peer_ids,
    room_peer_states := apop room_id s.room_peer_states,
    room_peer_last_heartbeat := apop room_id s.room_peer_last_heartbeat,
    next_peer_id := apop room_id s.next_peer_id }

/-- The empty-room check of `remove_client_from_room` (lines 97-108): delete
the room from all five dictionaries once its client list is empty. -/
def cleanupIfEmpty (room_id : String) (s : ServerState) : ServerState :=
  match afind room_id s.rooms with
  | some clients => if clients = [] then eraseRoomAll room_id s else s
  | none => s

/-- Translation of `remove_client_from_room` (lines 70-110), including the
fate of its nested lock acquisition.  `room_lock` is a non-reentrant
`asyncio.Lock`, held from line 73.  The pops of the websocket, the peer id
and the state/heartbeat entries (lines 76-87) complete under that single
acquisition.  But when a peer id was actually removed, the function then
awaits `notify_peer_disconnection` (line 92), whose `broadcast_to_room`
re-acquires `room_lock` at line 230 and blocks forever: no
`peer_disconnected` frame is ever sent and the empty-room cleanup at lines
97-108 is never reached.  The cleanup block runs only on the
`removed_peer_id is None` branches, which skip the notification.  The
unguarded `room_peer_last_heartbeat[room_id].pop` can raise `KeyError`,
caught by the enclosing `except`, which also skips notification and
cleanup.  The third component records whether the call returned (`true`)
or hung on the lock (`false`); in the hung case the first two components
are the mutations made and frames sent before the hang. -/
def removeClientFromRoom (s : ServerState) (room_id : String) (ws : Nat) :
    ServerState × List (Nat × Outbound) × Bool :=
  match afind room_id s.rooms with
  | none => (s, [], true)
  | some clients =>
    match idxOf ws clients with
    | none => (s, [], true)
    | some ci =>
      let s1 := { s with rooms := aset room_id (clients.eraseIdx ci) s.rooms }
      match afind room_id s1.room_peer_ids with
      | none => (cleanupIfEmpty room_id s1, [], true)
      | some ids =>
        if ci < ids.length then
          let s2 := { s1 with room_peer_ids := aset room_id (ids.eraseIdx ci) s1.room_peer_ids }
          match ids.get? ci with
          | none => (cleanupIfEmpty room_id s2, [], true)
          | some pid =>
            match afind room_id s2.room_peer_states with
            | none => (s2, [], false)
            | some stm =>
              let s3 := { s2 with room_peer_states := aset room_id (apop pid stm) s2.room_peer_states }
              match afind room_id s3.room_peer_last_heartbeat with
              | none => (s3, [], true)
              | some hbm =>
                let s4 := { s3 with room_peer_last_heartbeat := aset room_id (apop pid hbm) s3.room_peer_last_heartbeat }
                (s4, [], false)
        else (cleanupIfEmpty room_id s1, [], true)

/-- Translation of `update_peer_state` (lines 125-131): when the peer is
still tracked in the room's state dictionary, overwrite its state and
refresh its heartbeat. -/
def updatePeerState (s : ServerState) (room_id : String) (peer_id : Nat)
    (st : String) (now : Nat) : ServerState :=
  match afind room_id s.room_peer_states with
  | none => s
  | some stm =>
    if (afind peer_id stm).isSome then
      let s1 := { s with room_peer_states := aset room_id (aset peer_id st stm) s.room_peer_states }
      match afind room_id s1.room_peer_last_heartbeat with
      | none => s1
      | some hbm =>
        { s1 with room_peer_last_heartbeat := aset room_id (aset peer_id now hbm) s1.room_peer_last_heartbeat }
    else s

/-- The peer snapshot built by `relay_message` for `get_peers` and
`new_peer_joined` (lines 160-165, 181-186): each tracked id paired with its
state, defaulting to "unknown". -/
def peerSnapshot (ids : List Nat) (stm : List (Nat × String)) :
    List (Nat × String) :=
  ids.map (fun pid => (pid, (afind pid stm).getD "unknown"))

/-- Dispatch body of `relay_message` (lines 145-222) once the sender's peer
id has been resolved — with the fate of each branch's nested lock
acquisition made explicit, since `relay_message` holds the non-reentrant
`room_lock` from line 136.  `heartbeat` with a truthy sender id awaits
`update_peer_state`, which re-acquires the lock at line 127 and blocks
before any mutation.  `get_peers` replies via a direct
`sender.send_text` (line 172) with no nested acquisition, so it genuinely
delivers.  `new_peer_joined` awaits `broadcast_to_room` (line 193), whose
acquisition at line 230 blocks: nothing is delivered.  Any other JSON
object goes to `send_to_peer` (truthy `to_peer_id`, acquisition at line
244) or `broadcast_to_room` (falsy or absent `to_peer_id`), both of which
block before any presence check or send.  Non-JSON text goes to
`broadcast_to_room` (line 221) and blocks likewise.  JSON that is not an
object raises on `.get` and the `except` returns.  The third component
records whether the call returned (`true`) or hung (`false`); hung
branches change no state and deliver nothing. -/
def relayCore (s : ServerState) (room_id : String) (msg : Inbound)
    (sender : Nat) (sender_peer_id : Option Nat) (now : Nat) :
    ServerState × List (Nat × Outbound) × Bool :=
  match msg with
  | Inbound.raw _ => (s, [], false)
  | Inbound.nonObj => (s, [], true)
  | Inbound.obj ty toPeer _ =>
    if ty = some "heartbeat" then
      match sender_peer_id with
      | some pid => if pid ≠ 0 then (s, [], false) else (s, [], true)
      | none => (s, [], true)
    else if ty = some "get_peers" then
      match afind room_id s.room_peer_ids with
      | none => (s, [], true)
      | some ids =>
        match afind room_id s.room_peer_states with
        | none => (s, [], true)
        | some stm =>
          (s, [(sender, Outbound.peerList (peerSnapshot ids stm))], true)
    else if ty = some "new_peer_joined" then
      match afind room_id s.room_peer_ids with
      | none => (s, [], true)
      | some ids =>
        match afind room_id s.room_peer_states with
        | none => (s, [], true)
        | some _ => (s, [], false)
    else
      match toPeer with
      | some t => if t ≠ 0 then (s, [], false) else (s, [], false)
      | none => (s, [], false)

/-- Translation of `relay_message` (lines 133-225).  Resolves the sender's
peer id from its index in the room (lines 138-143); a `ValueError` from
`list.index` when the sender is not in the room aborts the whole call via
the enclosing `except`.  The dispatch body is `relayCore`, which accounts
for the nested `room_lock` re-acquisitions that make every delivering
branch except `get_peers` hang. -/
def relayMessage (s : ServerState) (room_id : String) (msg : Inbound)
    (sender : Nat) (now : Nat) : ServerState × List (Nat × Outbound) × Bool :=
  match afind room_id s.rooms with
  | none => (s, [], true)
  | some clients =>
    match afind room_id s.room_peer_ids with
    | none => relayCore s room_id msg sender none now
    | some ids =>
      match idxOf sender clients with
      | none => (s, [], true)
      | some si => relayCore s room_id msg sender (ids.get? si) now

/-- The peers a health sweep considers dead (lines 269-273): those whose
heartbeat is more than 60 seconds old, in dictionary order. -/
def deadPeersOf (hbm : List (Nat × Nat)) (now : Nat) : List Nat :=
  (hbm.filter (fun p => decide (60 < now - p.2))).map Prod.fst

/-- How a liveness-monitor tick's control flow ends: the loop ran to the
end of the given work list (`ran`), a `KeyError` escaped to the `except` at
line 290 so the tick returned early with the lock released (`aborted`), or
the tick deadlocked on a nested `room_lock` acquisition and never returns
(`hung`). -/
inductive TickExit : Type
  | ran
  | aborted
  | hung
deriving Repr, DecidableEq

/-- Inner loop of `check_connection_health` (lines 276-288): for each dead
peer still tracked, resolve its websocket by index and force-close it
(`dead_websocket.close()` at line 284 is a direct await with no lock).  The
following `await remove_client_from_room` then re-acquires the
non-reentrant `room_lock` already held since line 263 and blocks forever:
the peer is never removed, no notification goes out, and the tick wedges
at its first dead peer.  A `KeyError` reading `rooms[room_id]` instead
aborts the whole tick via the `except` at line 290. -/
def removeDeadPeers (room_id : String) : List Nat → ServerState →
    ServerState × List Event × TickExit
  | [], s => (s, [], TickExit.ran)
  | pid :: rest, s =>
    match afind room_id s.room_peer_ids with
    | none => removeDeadPeers room_id rest s
    | some ids =>
      match idxOf pid ids with
      | none => removeDeadPeers room_id rest s
      | some i =>
        match afind room_id s.rooms with
        | none => (s, [], TickExit.aborted)
        | some clients =>
          if i < clients.length then
            match clients.get? i with
            | none => removeDeadPeers room_id rest s
            | some w => (s, [Event.closed w], TickExit.hung)
          else removeDeadPeers room_id rest s

/-- Outer loop of one `check_connection_health` tick (lines 263-288): walk
the snapshot of room keys, compute each room's dead peers from its current
heartbeat dictionary, and process them; an abort or a hang in one room ends
the tick with the rooms after it unprocessed. -/
def sweepRooms (now : Nat) : List String → ServerState →
    ServerState × List Event × TickExit
  | [], s => (s, [], TickExit.ran)
  | r :: rest, s =>
    match afind r s.room_peer_last_heartbeat with
    | none => sweepRooms now rest s
    | some hbm =>
      let r1 := removeDeadPeers r (deadPeersOf hbm now) s
      match r1.2.2 with
      | TickExit.ran =>
        let r2 := sweepRooms now rest r1.1
        (r2.1, r1.2.1 ++ r2.2.1, r2.2.2)
      | e => (r1.1, r1.2.1, e)

/-- One tick of the liveness monitor `check_connection_health` (lines
257-291): sweep every room present at the start of the tick.  A tick with
any dead peer closes the first such peer's websocket and then hangs inside
`remove_client_from_room`'s lock acquisition (line 73), leaving the
registry unchanged. -/
def sweepTick (s : ServerState) (now : Nat) :
    ServerState × List Event × TickExit :=
  sweepRooms now (akeys s.rooms) s

/-- Connection prelude of `websocket_endpoint` (lines 484-516): admit the
client; on failure send the structured ROOM_FULL error and close; on success
immediately set the peer's state to "connected" (line 502) and send the
welcome frame.  This all happens before the receive loop, i.e. before any
traffic from the client. -/
def wsConnect (s : ServerState) (room_id : String) (ws : Nat) (now : Nat) :
    ServerState × List Event × Option Nat :=
  match addClientToRoom s room_id ws now with
  | (s1, none) =>
    (s1, [Event.sent ws (Outbound.errorMsg "ROOM_FULL" "Room is full"),
          Event.closed ws], none)
  | (s1, some pid) =>
    let s2 := updatePeerState s1 room_id pid "connected" now
    (s2, [Event.sent ws (Outbound.welcome pid room_id)], some pid)

/-- Consistency invariant tying the five dictionaries together: identical
room-key sets, index-aligned client and id lists of equal length, strictly
increasing id lists bounded by the room's counter, and per-peer state and
heartbeat dictionaries keyed exactly by the room's current ids. -/
structure Inv (s : ServerState) : Prop where
  keys_ids : ∀ r : String, (afind r s.rooms).isSome = true ↔
    (afind r s.room_peer_ids).isSome = true
  keys_states : ∀ r : String, (afind r s.rooms).isSome = true ↔
    (afind r s.room_peer_states).isSome = true
  keys_hb : ∀ r : String, (afind r s.rooms).isSome = true ↔
    (afind r s.room_peer_last_heartbeat).isSome = true
  keys_next : ∀ r : String, (afind r s.rooms).isSome = true ↔
    (afind r s.next_peer_id).isSome = true
  nodup_rooms : (akeys s.rooms).Nodup
  nodup_idsmap : (akeys s.room_peer_ids).Nodup
  nodup_statesmap : (akeys s.room_peer_states).Nodup
  nodup_hbmap : (akeys s.room_peer_last_heartbeat).Nodup
  nodup_nextmap : (akeys s.next_peer_id).Nodup
  len_eq : ∀ (r : String) (clients ids : List Nat),
    afind r s.rooms = some clients → afind r s.room_peer_ids = some ids →
    clients.length = ids.length
  ids_sorted : ∀ (r : String) (ids : List Nat),
    afind r s.room_peer_ids = some ids → ids.Pairwise (· < ·)
  ids_bound : ∀ (r : String) (ids : List Nat) (n : Nat),
    afind r s.room_peer_ids = some ids → afind r s.next_peer_id = some n →
    ∀ i ∈ ids, i < n
  states_keys : ∀ (r : String) (ids : List Nat) (m : List (Nat × String)),
    afind r s.room_peer_ids = some ids → afind r s.room_peer_states = some m →
    ∀ p : Nat, p ∈ akeys m ↔ p ∈ ids
  hb_keys : ∀ (r : String) (ids : List Nat) (m : List (Nat × Nat)),
    afind r s.room_peer_ids = some ids →
    afind r s.room_peer_last_heartbeat = some m →
    ∀ p : Nat, p ∈ akeys m ↔ p ∈ ids
  states_keys_nodup : ∀ (r : String) (m : List (Nat × String)),
    afind r s.room_peer_states = some m → (akeys m).Nodup
  hb_keys_nodup : ∀ (r : String) (m : List (Nat × Nat)),
    afind r s.room_peer_last_heartbeat = some m → (akeys m).Nodup
  next_pos : ∀ (r : String) (n : Nat), afind r s.next_peer_id = some n → 1 ≤ n

/-- Normal form of a state whose entries for room `r` have just been
rewritten, every other room untouched. -/
def setRoom (s : ServerState) (r : String) (clients ids : List Nat)
    (stm : List (Nat × String)) (hbm : List (Nat × Nat)) (n : Nat) :
    ServerState :=
  { rooms := aset r clients s.rooms,
    room_peer_ids := aset r ids s.room_peer_ids,
    room_peer_states := aset r stm s.room_peer_states,
    room_peer_last_heartbeat := aset r hbm s.room_peer_last_heartbeat,
    next_peer_id := aset r n s.next_peer_id }

/-- One registry operation of the source acting on the shared state:
admission, removal, heartbeat/state update, message relay, or one tick of
the liveness monitor. -/
inductive Step : ServerState → ServerState → Prop
  | admitStep (s : ServerState) (r : String) (ws now : Nat) :
      Step s (addClientToRoom s r ws now).1
  | removal (s : ServerState) (r : String) (ws : Nat) :
      Step s (removeClientFromRoom s r ws).1
  | stateUpdate (s : ServerState) (r : String) (pid : Nat) (st : String)
      (now : Nat) : Step s (updatePeerState s r pid st now)
  | relayStep (s : ServerState) (r : String) (msg : Inbound)
      (sender now : Nat) : Step s (relayMessage s r msg sender now).1
  | monitorTick (s : ServerState) (now : Nat) : Step s (sweepTick s now).1

/-- States reachable from module load by any interleaving of the registry
operations. -/
def Reachable (s : ServerState) : Prop :=
  Relation.ReflTransGen Step initState s

/-- A single admission into or removal from room `r`, as the claim's
"sequence of admission and removal operations applied to a single room". -/
inductive RoomOp (r : String) : ServerState → ServerState → Prop
  | admitOp (s : ServerState) (ws now : Nat) :
      RoomOp r s (addClientToRoom s r ws now).1
  | removeOp (s : ServerState) (ws : Nat) :
      RoomOp r s (removeClientFromRoom s r ws).1

/-- An admission or removal on room `r` after which the room still exists. -/
def KeepsRoom (r : String) (s t : ServerState) : Prop :=
  RoomOp r s t ∧ (afind r t.rooms).isSome = true

/-- A sequence of admissions/removals on room `r` during which the room is
never deleted (the room's lifetime). -/
def ReachKeep (r : String) : ServerState → ServerState → Prop :=
  Relation.ReflTransGen (KeepsRoom r)

/-- Modelled from the spec: Star mode is missing from `src/app.py` — the
source implements only the mesh relay, with no `mode` or `hostId` field and
no host special-casing in `remove_client_from_room`.  This definition
follows the spec's words for `Remove` in Star mode (section 4.1 `Remove` and
the section 3 invariant): when the removed peer is the host (always id 1),
every remaining peer's connection receives an explanatory message and is
force-closed before the room record is deleted from every dictionary, all
within the one operation; removing a non-host peer behaves like the mesh
removal. -/
def removeClientStar (s : ServerState) (room_id : String) (ws : Nat) :
    ServerState × List Event :=
  match afind room_id s.rooms, afind room_id s.room_peer_ids with
  | some clients, some ids =>
    match idxOf ws clients with
    | some ci =>
      match ids.get? ci with
      | some pid =>
        if pid = 1 then
          let others := clients.eraseIdx ci
          (eraseRoomAll room_id s,
           others.map (fun c => Event.sent c Outbound.hostLeft) ++
             others.map Event.closed)
        else
          let res := removeClientFromRoom s room_id ws
          (res.1, res.2.1.map (fun q => Event.sent q.1 q.2))
      | none => (s, [])
    | none => (s, [])
  | _, _ => (s, [])

/-- A concrete registry holding one room "r1" at capacity: four websockets
5, 6, 7, 8 owning peer ids 1, 2, 3, 4. -/
def fullRoom : ServerState :=
  { rooms := [("r1", [5, 6, 7, 8])],
    room_peer_ids := [("r1", [1, 2, 3, 4])],
    room_peer_states := [("r1", [(1, "connected"), (2, "connected"), (3, "connected"), (4, "connected")])],
    room_peer_last_heartbeat := [("r1", [(1, 0), (2, 0), (3, 0), (4, 0)])],
    next_peer_id := [("r1", 5)] }

/-- A concrete registry holding one room "r1" with two peers: websocket 5
owns peer id 1 (heartbeat at time 0), websocket 6 owns peer id 2 (heartbeat
at time 100). -/
def staleRoom : ServerState :=
  { rooms := [("r1", [5, 6])],
    room_peer_ids := [("r1", [1, 2])],
    room_peer_states := [("r1", [(1, "connected"), (2, "connected")])],
    room_peer_last_heartbeat := [("r1", [(1, 0), (2, 100)])],
    next_peer_id := [("r1", 3)] }

@[simp] theorem afind_nil {κ α : Type} [DecidableEq κ] (k : κ) :
    afind (α := α) k [] = none := rfl

@[simp] theorem akeys_nil {κ α : Type} : akeys (α := α) (κ := κ) [] = [] := rfl

@[simp] theorem akeys_cons {κ α : Type} (p : κ × α) (t : List (κ × α)) :
    akeys (p :: t) = p.1 :: akeys t := rfl

theorem afind_aset_self {κ α : Type} [DecidableEq κ] (k : κ) (v : α)
    (l : List (κ × α)) : afind k (aset k v l) = some v := by
  induction l with
  | nil => simp [aset, afind]
  | cons p t ih =>
    by_cases hp : p.1 = k <;> simp [aset, afind, hp, ih]

theorem afind_aset_ne {κ α : Type} [DecidableEq κ] {k' k : κ} (h : k' ≠ k)
    (v : α) (l : List (κ × α)) : afind k' (aset k v l) = afind k' l := by
  induction l with
  | nil => simp [aset, afind, Ne.symm h]
  | cons p t ih =>
    by_cases hp : p.1 = k
    · subst hp
      simp [aset, afind, Ne.symm h]
    · simp only [aset, if_neg hp, afind]
      by_cases hq : p.1 = k' <;> simp [hq, ih]

theorem afind_apop_ne {κ α : Type} [DecidableEq κ] {k' k : κ} (h : k' ≠ k)
    (l : List (κ × α)) : afind k' (apop k l) = afind k' l := by
  induction l with
  | nil => simp [apop]
  | cons p t ih =>
    by_cases hp : p.1 = k
    · subst hp
      simp [apop, afind, Ne.symm h]
    · simp only [apop, if_neg hp, afind]
      by_cases hq : p.1 = k' <;> simp [hq, ih]

theorem akeys_apop {κ α : Type} [DecidableEq κ] (k : κ) (l : List (κ × α)) :
    akeys (apop k l) = (akeys l).erase k := by
  induction l with
  | nil => simp [apop]
  | cons p t ih =>
    by_cases hp : p.1 = k
    · simp [apop, hp, List.erase_cons_head]
    · simp [apop, hp, List.erase_cons_tail, ih]

theorem afind_eq_none_iff {κ α : Type} [DecidableEq κ] (k : κ)
    (l : List (κ × α)) : afind k l = none ↔ k ∉ akeys l := by
  induction l with
  | nil => simp
  | cons p t ih =>
    by_cases hp : p.1 = k
    · simp [afind, hp]
    · have hp' : ¬ k = p.1 := fun hh => hp hh.symm
      simp [afind, hp, hp', ih]

theorem afind_isSome_iff {κ α : Type} [DecidableEq κ] (k : κ)
    (l : List (κ × α)) : (afind k l).isSome = true ↔ k ∈ akeys l := by
  constructor
  · intro h
    by_contra hm
    rw [(afind_eq_none_iff k l).2 hm] at h
    simp at h
  · intro h
    cases hf : afind k l with
    | none => exact absurd h ((afind_eq_none_iff k l).1 hf)
    | some v => simp

theorem afind_apop_self {κ α : Type} [DecidableEq κ] (k : κ)
    {l : List (κ × α)} (h : (akeys l).Nodup) : afind k (apop k l) = none := by
  induction l with
  | nil => simp [apop]
  | cons p t ih =>
    simp only [akeys_cons, List.nodup_cons] at h
    by_cases hp : p.1 = k
    · subst hp
      simpa [apop, afind_eq_none_iff] using h.1
    · simp only [apop, if_neg hp, afind, hp, if_false]
      exact ih h.2

theorem akeys_aset_of_mem {κ α : Type} [DecidableEq κ] {k : κ} (v : α)
    {l : List (κ × α)} (h : k ∈ akeys l) : akeys (aset k v l) = akeys l := by
  induction l with
  | nil => simp at h
  | cons p t ih =>
    by_cases hp : p.1 = k
    · simp [aset, hp]
    · rcases List.mem_cons.1 h with h1 | h2
      · exact absurd h1.symm hp
      · simp [aset, hp, ih h2]

theorem akeys_aset_of_not_mem {κ α : Type} [DecidableEq κ] {k : κ} (v : α)
    {l : List (κ × α)} (h : k ∉ akeys l) :
    akeys (aset k v l) = akeys l ++ [k] := by
  induction l with
  | nil => simp [aset]
  | cons p t ih =>
    simp only [akeys_cons, List.mem_cons, not_or] at h
    by_cases hp : p.1 = k
    · exact absurd hp.symm h.1
    · simp [aset, hp, ih h.2]

theorem nodup_akeys_aset {κ α : Type} [DecidableEq κ] (k : κ) (v : α)
    {l : List (κ × α)} (h : (akeys l).Nodup) : (akeys (aset k v l)).Nodup := by
  by_cases hm : k ∈ akeys l
  · rwa [akeys_aset_of_mem v hm]
  · rw [akeys_aset_of_not_mem v hm]
    simpa [List.nodup_append] using ⟨h, fun hk => hm hk⟩

theorem nodup_akeys_apop {κ α : Type} [DecidableEq κ] (k : κ)
    {l : List (κ × α)} (h : (akeys l).Nodup) : (akeys (apop k l)).Nodup := by
  rw [akeys_apop]
  exact h.erase k

theorem aset_aset {κ α : Type} [DecidableEq κ] (k : κ) (v v' : α)
    (l : List (κ × α)) : aset k v (aset k v' l) = aset k v l := by
  induction l with
  | nil => simp [aset]
  | cons p t ih =>
    by_cases hp : p.1 = k <;> simp [aset, hp, ih]

theorem idxOf_eq_none_iff {α : Type} [DecidableEq α] (a : α) (l : List α) :
    idxOf a l = none ↔ a ∉ l := by
  induction l with
  | nil => simp [idxOf]
  | cons b t ih =>
    by_cases hb : b = a
    · subst hb
      simp [idxOf]
    · have hb' : ¬ a = b := fun hh => hb hh.symm
      cases hx : idxOf a t with
      | none => simp [idxOf, hb, hx, hb', ih.1 hx]
      | some j =>
        have hmem : a ∈ t := by
          by_contra hm
          simp [ih.2 hm] at hx
        simp [idxOf, hb, hx, hmem]

theorem get?_idxOf {α : Type} [DecidableEq α] {a : α} {l : List α} {i : Nat}
    (h : idxOf a l = some i) : l.get? i = some a := by
  induction l generalizing i with
  | nil => simp [idxOf] at h
  | cons b t ih =>
    by_cases hb : b = a
    · simp only [idxOf, if_pos hb, Option.some.injEq] at h
      subst hb
      simp [← h]
    · simp only [idxOf, if_neg hb] at h
      cases hmap : idxOf a t with
      | none => rw [hmap] at h; simp at h
      | some j =>
        rw [hmap] at h
        simp only [Option.map_some', Option.some.injEq] at h
        subst h
        simpa using ih hmap

theorem idxOf_lt_length {α : Type} [DecidableEq α] {a : α} {l : List α}
    {i : Nat} (h : idxOf a l = some i) : i < l.length := by
  have h2 := get?_idxOf h
  by_contra hlt
  rw [List.get?_eq_none.2 (le_of_not_lt hlt)] at h2
  simp at h2

theorem mem_of_idxOf {α : Type} [DecidableEq α] {a : α} {l : List α} {i : Nat}
    (h : idxOf a l = some i) : a ∈ l :=
  List.get?_mem (get?_idxOf h)

theorem idxOf_get_of_nodup {α : Type} [DecidableEq α] {a : α} {l : List α}
    {i : Nat} (hnd : l.Nodup) (h : l.get? i = some a) : idxOf a l = some i := by
  induction l generalizing i with
  | nil => simp at h
  | cons b t ih =>
    rcases List.nodup_cons.1 hnd with ⟨hb, ht⟩
    cases i with
    | zero =>
      rw [List.get?_cons_zero] at h
      injection h with h
      subst h
      simp [idxOf]
    | succ j =>
      rw [List.get?_cons_succ] at h
      have hmem : a ∈ t := List.get?_mem h
      have hba : b ≠ a := fun hh => hb (hh ▸ hmem)
      simp [idxOf, hba, ih ht h]

theorem mem_eraseIdx_iff_of_nodup {α : Type} [DecidableEq α] {l : List α}
    {ci : Nat} {pid p : α} (hnd : l.Nodup) (h : l.get? ci = some pid) :
    (p ∈ l.eraseIdx ci ↔ (p ∈ l ∧ p ≠ pid)) := by
  induction l generalizing ci with
  | nil => simp at h
  | cons b t ih =>
    rcases List.nodup_cons.1 hnd with ⟨hb, ht⟩
    cases ci with
    | zero =>
      rw [List.get?_cons_zero] at h
      injection h with h
      subst h
      simp only [List.eraseIdx]
      constructor
      · intro hp
        refine ⟨List.mem_cons_of_mem _ hp, ?_⟩
        intro hpe
        exact hb (hpe ▸ hp)
      · rintro ⟨hp, hne⟩
        rcases List.mem_cons.1 hp with rfl | hp
        · exact absurd rfl hne
        · exact hp
    | succ j =>
      rw [List.get?_cons_succ] at h
      have hbp : b ≠ pid := fun hh => hb (hh ▸ List.get?_mem h)
      simp only [List.eraseIdx, List.mem_cons, ih ht h]
      constructor
      · rintro (rfl | ⟨hp, hne⟩)
        · exact ⟨Or.inl rfl, hbp⟩
        · exact ⟨Or.inr hp, hne⟩
      · rintro ⟨rfl | hp, hne⟩
        · exact Or.inl rfl
        · exact Or.inr ⟨hp, hne⟩

theorem aset_of_afind_eq {κ α : Type} [DecidableEq κ] {k : κ} {v : α}
    {l : List (κ × α)} (h : afind k l = some v) : aset k v l = l := by
  induction l with
  | nil => simp [afind] at h
  | cons p t ih =>
    by_cases hp : p.1 = k
    · simp only [afind, if_pos hp] at h
      injection h with h
      simp only [aset, if_pos hp]
      rw [← hp, ← h]
    · simp only [afind, if_neg hp] at h
      simp [aset, hp, ih h]

theorem apop_aset {κ α : Type} [DecidableEq κ] (k : κ) (v : α)
    (l : List (κ × α)) : apop k (aset k v l) = apop k l := by
  induction l with
  | nil => simp [aset, apop]
  | cons p t ih =>
    by_cases hp : p.1 = k <;> simp [aset, apop, hp, ih]

theorem Inv_initState : Inv initState := by
  constructor <;> simp [initState]

theorem Inv_setRoom (s : ServerState) (r : String) (clients ids : List Nat)
    (stm : List (Nat × String)) (hbm : List (Nat × Nat)) (n : Nat) (hs : Inv s)
    (hclen : clients.length = ids.length)
    (hsorted : ids.Pairwise (· < ·))
    (hbound : ∀ i ∈ ids, i < n)
    (hskeys : ∀ p : Nat, p ∈ akeys stm ↔ p ∈ ids)
    (hhkeys : ∀ p : Nat, p ∈ akeys hbm ↔ p ∈ ids)
    (hsnd : (akeys stm).Nodup)
    (hhnd : (akeys hbm).Nodup)
    (hnpos : 1 ≤ n) :
    Inv (setRoom s r clients ids stm hbm n) := by
  unfold setRoom
  constructor
  case keys_ids =>
    intro r'
    by_cases hr : r' = r
    · subst hr
      simp [afind_aset_self]
    · simpa [afind_aset_ne hr] using hs.keys_ids r'
  case keys_states =>
    intro r'
    by_cases hr : r' = r
    · subst hr
      simp [afind_aset_self]
    · simpa [afind_aset_ne hr] using hs.keys_states r'
  case keys_hb =>
    intro r'
    by_cases hr : r' = r
    · subst hr
      simp [afind_aset_self]
    · simpa [afind_aset_ne hr] using hs.keys_hb r'
  case keys_next =>
    intro r'
    by_cases hr : r' = r
    · subst hr
      simp [afind_aset_self]
    · simpa [afind_aset_ne hr] using hs.keys_next r'
  case nodup_rooms => exact nodup_akeys_aset r clients hs.nodup_rooms
  case nodup_idsmap => exact nodup_akeys_aset r ids hs.nodup_idsmap
  case nodup_statesmap => exact nodup_akeys_aset r stm hs.nodup_statesmap
  case nodup_hbmap => exact nodup_akeys_aset r hbm hs.nodup_hbmap
  case nodup_nextmap => exact nodup_akeys_aset r n hs.nodup_nextmap
  case len_eq =>
    intro r' c' i' h1 h2
    by_cases hr : r' = r
    · subst hr
      rw [afind_aset_self] at h1 h2
      injection h1 with h1
      injection h2 with h2
      subst h1
      subst h2
      exact hclen
    · rw [afind_aset_ne hr] at h1 h2
      exact hs.len_eq r' c' i' h1 h2
  case ids_sorted =>
    intro r' i' h1
    by_cases hr : r' = r
    · subst hr
      rw [afind_aset_self] at h1
      injection h1 with h1
      subst h1
      exact hsorted
    · rw [afind_aset_ne hr] at h1
      exact hs.ids_sorted r' i' h1
  case ids_bound =>
    intro r' i' n' h1 h2
    by_cases hr : r' = r
    · subst hr
      rw [afind_aset_self] at h1 h2
      injection h1 with h1
      injection h2 with h2
      subst h1
      subst h2
      exact hbound
    · rw [afind_aset_ne hr] at h1 h2
      exact hs.ids_bound r' i' n' h1 h2
  case states_keys =>
    intro r' i' m' h1 h2
    by_cases hr : r' = r
    · subst hr
      rw [afind_aset_self] at h1 h2
      injection h1 with h1
      injection h2 with h2
      subst h1
      subst h2
      exact hskeys
    · rw [afind_aset_ne hr] at h1 h2
      exact hs.states_keys r' i' m' h1 h2
  case hb_keys =>
    intro r' i' m' h1 h2
    by_cases hr : r' = r
    · subst hr
      rw [afind_aset_self] at h1 h2
      injection h1 with h1
      injection h2 with h2
      subst h1
      subst h2
      exact hhkeys
    · rw [afind_aset_ne hr] at h1 h2
      exact hs.hb_keys r' i' m' h1 h2
  case states_keys_nodup =>
    intro r' m' h1
    by_cases hr : r' = r
    · subst hr
      rw [afind_aset_self] at h1
      injection h1 with h1
      subst h1
      exact hsnd
    · rw [afind_aset_ne hr] at h1
      exact hs.states_keys_nodup r' m' h1
  case hb_keys_nodup =>
    intro r' m' h1
    by_cases hr : r' = r
    · subst hr
      rw [afind_aset_self] at h1
      injection h1 with h1
      subst h1
      exact hhnd
    · rw [afind_aset_ne hr] at h1
      exact hs.hb_keys_nodup r' m' h1
  case next_pos =>
    intro r' n' h1
    by_cases hr : r' = r
    · subst hr
      rw [afind_aset_self] at h1
      injection h1 with h1
      subst h1
      exact hnpos
    · rw [afind_aset_ne hr] at h1
      exact hs.next_pos r' n' h1

theorem Inv_eraseRoomAll (s : ServerState) (r : String) (hs : Inv s) :
    Inv (eraseRoomAll r s) := by
  unfold eraseRoomAll
  constructor
  case keys_ids =>
    intro r'
    by_cases hr : r' = r
    · subst hr
      simp [afind_apop_self r' hs.nodup_rooms, afind_apop_self r' hs.nodup_idsmap]
    · simpa [afind_apop_ne hr] using hs.keys_ids r'
  case keys_states =>
    intro r'
    by_cases hr : r' = r
    · subst hr
      simp [afind_apop_self r' hs.nodup_rooms, afind_apop_self r' hs.nodup_statesmap]
    · simpa [afind_apop_ne hr] using hs.keys_states r'
  case keys_hb =>
    intro r'
    by_cases hr : r' = r
    · subst hr
      simp [afind_apop_self r' hs.nodup_rooms, afind_apop_self r' hs.nodup_hbmap]
    · simpa [afind_apop_ne hr] using hs.keys_hb r'
  case keys_next =>
    intro r'
    by_cases hr : r' = r
    · subst hr
      simp [afind_apop_self r' hs.nodup_rooms, afind_apop_self r' hs.nodup_nextmap]
    · simpa [afind_apop_ne hr] using hs.keys_next r'
  case nodup_rooms => exact nodup_akeys_apop r hs.nodup_rooms
  case nodup_idsmap => exact nodup_akeys_apop r hs.nodup_idsmap
  case nodup_statesmap => exact nodup_akeys_apop r hs.nodup_statesmap
  case nodup_hbmap => exact nodup_akeys_apop r hs.nodup_hbmap
  case nodup_nextmap => exact nodup_akeys_apop r hs.nodup_nextmap
  case len_eq =>
    intro r' c' i' h1 h2
    by_cases hr : r' = r
    · subst hr
      rw [afind_apop_self r' hs.nodup_rooms] at h1
      cases h1
    · rw [afind_apop_ne hr] at h1 h2
      exact hs.len_eq r' c' i' h1 h2
  case ids_sorted =>
    intro r' i' h1
    by_cases hr : r' = r
    · subst hr
      rw [afind_apop_self r' hs.nodup_idsmap] at h1
      cases h1
    · rw [afind_apop_ne hr] at h1
      exact hs.ids_sorted r' i' h1
  case ids_bound =>
    intro r' i' n' h1 h2
    by_cases hr : r' = r
    · subst hr
      rw [afind_apop_self r' hs.nodup_idsmap] at h1
      cases h1
    · rw [afind_apop_ne hr] at h1 h2
      exact hs.ids_bound r' i' n' h1 h2
  case states_keys =>
    intro r' i' m' h1 h2
    by_cases hr : r' = r
    · subst hr
      rw [afind_apop_self r' hs.nodup_idsmap] at h1
      cases h1
    · rw [afind_apop_ne hr] at h1 h2
      exact hs.states_keys r' i' m' h1 h2
  case hb_keys =>
    intro r' i' m' h1 h2
    by_cases hr : r' = r
    · subst hr
      rw [afind_apop_self r' hs.nodup_idsmap] at h1
      cases h1
    · rw [afind_apop_ne hr] at h1 h2
      exact hs.hb_keys r' i' m' h1 h2
  case states_keys_nodup =>
    intro r' m' h1
    by_cases hr : r' = r
    · subst hr
      rw [afind_apop_self r' hs.nodup_statesmap] at h1
      cases h1
    · rw [afind_apop_ne hr] at h1
      exact hs.states_keys_nodup r' m' h1
  case hb_keys_nodup =>
    intro r' m' h1
    by_cases hr : r' = r
    · subst hr
      rw [afind_apop_self r' hs.nodup_hbmap] at h1
      cases h1
    · rw [afind_apop_ne hr] at h1
      exact hs.hb_keys_nodup r' m' h1
  case next_pos =>
    intro r' n' h1
    by_cases hr : r' = r
    · subst hr
      rw [afind_apop_self r' hs.nodup_nextmap] at h1
      cases h1
    · rw [afind_apop_ne hr] at h1
      exact hs.next_pos r' n' h1

theorem add_eq_of_absent (s : ServerState) (r : String) (ws now : Nat)
    (h : afind r s.rooms = none) :
    addClientToRoom s r ws now =
      (setRoom s r [ws] [1] [(1, "connecting")] [(1, now)] 2, some 1) := by
  unfold addClientToRoom initRoomMaps setRoom
  simp [h, afind_aset_self, aset_aset, aset]

theorem add_eq_full (s : ServerState) (r : String) (ws now : Nat)
    (clients : List Nat) (h : afind r s.rooms = some clients)
    (hlen : 4 ≤ clients.length) :
    addClientToRoom s r ws now = (s, none) := by
  unfold addClientToRoom
  simp [h, hlen]

theorem add_eq_of_present (s : ServerState) (r : String) (ws now : Nat)
    (clients ids : List Nat) (n : Nat) (stm : List (Nat × String))
    (hbm : List (Nat × Nat))
    (h : afind r s.rooms = some clients) (hlen : clients.length < 4)
    (hn : afind r s.next_peer_id = some n)
    (hids : afind r s.room_peer_ids = some ids)
    (hst : afind r s.room_peer_states = some stm)
    (hhb : afind r s.room_peer_last_heartbeat = some hbm) :
    addClientToRoom s r ws now =
      (setRoom s r (clients ++ [ws]) (ids ++ [n]) (aset n "connecting" stm)
        (aset n now hbm) (n + 1), some n) := by
  unfold addClientToRoom setRoom
  simp [h, hn, hids, hst, hhb, Nat.not_le.2 hlen]

theorem remove_eq_absent (s : ServerState) (r : String) (ws : Nat)
    (h : afind r s.rooms = none) :
    removeClientFromRoom s r ws = (s, [], true) := by
  unfold removeClientFromRoom
  simp [h]

theorem remove_eq_notmem (s : ServerState) (r : String) (ws : Nat)
    (clients : List Nat) (h : afind r s.rooms = some clients)
    (hidx : idxOf ws clients = none) :
    removeClientFromRoom s r ws = (s, [], true) := by
  unfold removeClientFromRoom
  simp [h, hidx]

theorem remove_eq (s : ServerState) (r : String) (ws : Nat)
    (clients ids : List Nat) (ci pid : Nat) (stm : List (Nat × String))
    (hbm : List (Nat × Nat)) (n : Nat)
    (h : afind r s.rooms = some clients) (hidx : idxOf ws clients = some ci)
    (hids : afind r s.room_peer_ids = some ids) (hci : ci < ids.length)
    (hpid : ids.get? ci = some pid)
    (hst : afind r s.room_peer_states = some stm)
    (hhb : afind r s.room_peer_last_heartbeat = some hbm)
    (hn : afind r s.next_peer_id = some n) :
    removeClientFromRoom s r ws =
      (setRoom s r (clients.eraseIdx ci) (ids.eraseIdx ci)
        (apop pid stm) (apop pid hbm) n, [], false) := by
  have hpid2 : ids[ci]? = some pid := by
    rw [← List.get?_eq_getElem?]
    exact hpid
  unfold removeClientFromRoom setRoom
  rw [aset_of_afind_eq hn]
  simp [h, hidx, hids, hci, hpid, hpid2, hst, hhb]

theorem update_eq_none (s : ServerState) (r : String) (pid : Nat) (st : String)
    (now : Nat) (h : afind r s.room_peer_states = none) :
    updatePeerState s r pid st now = s := by
  unfold updatePeerState
  simp [h]

theorem update_eq_absent (s : ServerState) (r : String) (pid : Nat)
    (st : String) (now : Nat) (stm : List (Nat × String))
    (hst : afind r s.room_peer_states = some stm)
    (hp : afind pid stm = none) :
    updatePeerState s r pid st now = s := by
  unfold updatePeerState
  simp [hst, hp]

theorem update_eq_aborted (s : ServerState) (r : String) (pid : Nat)
    (st : String) (now : Nat) (v : String) (stm : List (Nat × String))
    (hst : afind r s.room_peer_states = some stm)
    (hp : afind pid stm = some v)
    (hhb : afind r s.room_peer_last_heartbeat = none) :
    updatePeerState s r pid st now =
      { s with room_peer_states := aset r (aset pid st stm) s.room_peer_states } := by
  unfold updatePeerState
  simp [hst, hp, hhb]

theorem update_eq (s : ServerState) (r : String) (pid : Nat) (st : String)
    (now : Nat) (v : String) (stm : List (Nat × String)) (hbm : List (Nat × Nat))
    (hst : afind r s.room_peer_states = some stm)
    (hp : afind pid stm = some v)
    (hhb : afind r s.room_peer_last_heartbeat = some hbm) :
    updatePeerState s r pid st now =
      { s with room_peer_states := aset r (aset pid st stm) s.room_peer_states,
               room_peer_last_heartbeat := aset r (aset pid now hbm) s.room_peer_last_heartbeat } := by
  unfold updatePeerState
  simp [hst, hp, hhb]

theorem Inv.lookups {s : ServerState} (hs : Inv s) {r : String}
    {clients : List Nat} (h : afind r s.rooms = some clients) :
    ∃ (ids : List Nat) (stm : List (Nat × String)) (hbm : List (Nat × Nat))
      (n : Nat),
      afind r s.room_peer_ids = some ids ∧
      afind r s.room_peer_states = some stm ∧
      afind r s.room_peer_last_heartbeat = some hbm ∧
      afind r s.next_peer_id = some n := by
  have hsome : (afind r s.rooms).isSome = true := by rw [h]; rfl
  obtain ⟨ids, hids⟩ := Option.isSome_iff_exists.1 ((hs.keys_ids r).1 hsome)
  obtain ⟨stm, hst⟩ := Option.isSome_iff_exists.1 ((hs.keys_states r).1 hsome)
  obtain ⟨hbm, hhb⟩ := Option.isSome_iff_exists.1 ((hs.keys_hb r).1 hsome)
  obtain ⟨n, hn⟩ := Option.isSome_iff_exists.1 ((hs.keys_next r).1 hsome)
  exact ⟨ids, stm, hbm, n, hids, hst, hhb, hn⟩

theorem Inv_add (s : ServerState) (r : String) (ws now : Nat) (hs : Inv s) :
    Inv (addClientToRoom s r ws now).1 := by
  cases hroom : afind r s.rooms with
  | none =>
    rw [add_eq_of_absent s r ws now hroom]
    exact Inv_setRoom s r [ws] [1] [(1, "connecting")] [(1, now)] 2 hs
      (by simp) (by simp) (by simp) (by simp [akeys]) (by simp [akeys])
      (by simp [akeys]) (by simp [akeys]) (by simp)
  | some clients =>
    obtain ⟨ids, stm, hbm, n, hids, hst, hhb, hn⟩ := hs.lookups hroom
    by_cases hcap : 4 ≤ clients.length
    · rw [add_eq_full s r ws now clients hroom hcap]
      exact hs
    · have hlt : clients.length < 4 := Nat.lt_of_not_le hcap
      rw [add_eq_of_present s r ws now clients ids n stm hbm hroom hlt hn hids hst hhb]
      have hboundids := hs.ids_bound r ids n hids hn
      have hnotin : n ∉ akeys stm := by
        intro hmem
        have hni : n ∈ ids := (hs.states_keys r ids stm hids hst n).1 hmem
        exact absurd (hboundids n hni) (lt_irrefl n)
      have hnotinh : n ∉ akeys hbm := by
        intro hmem
        have hni : n ∈ ids := (hs.hb_keys r ids hbm hids hhb n).1 hmem
        exact absurd (hboundids n hni) (lt_irrefl n)
      apply Inv_setRoom s r _ _ _ _ _ hs
      · simp [hs.len_eq r clients ids hroom hids]
      · rw [List.pairwise_append]
        refine ⟨hs.ids_sorted r ids hids, by simp, ?_⟩
        intro a ha b hb
        rw [List.mem_singleton] at hb
        subst hb
        exact hboundids a ha
      · intro i hi
        rcases List.mem_append.1 hi with hi | hi
        · exact Nat.lt_succ_of_lt (hboundids i hi)
        · rw [List.mem_singleton] at hi
          subst hi
          exact Nat.lt_succ_self _
      · intro p
        rw [akeys_aset_of_not_mem _ hnotin]
        simp [hs.states_keys r ids stm hids hst p]
      · intro p
        rw [akeys_aset_of_not_mem _ hnotinh]
        simp [hs.hb_keys r ids hbm hids hhb p]
      · rw [akeys_aset_of_not_mem _ hnotin]
        simp [List.nodup_append, hs.states_keys_nodup r stm hst, hnotin]
      · rw [akeys_aset_of_not_mem _ hnotinh]
        simp [List.nodup_append, hs.hb_keys_nodup r hbm hhb, hnotinh]
      · exact Nat.le_succ_of_le (hs.next_pos r n hn)

theorem Inv_remove (s : ServerState) (r : String) (ws : Nat) (hs : Inv s) :
    Inv (removeClientFromRoom s r ws).1 := by
  cases hroom : afind r s.rooms with
  | none =>
    rw [remove_eq_absent s r ws hroom]
    exact hs
  | some clients =>
    cases hidx : idxOf ws clients with
    | none =>
      rw [remove_eq_notmem s r ws clients hroom hidx]
      exact hs
    | some ci =>
      obtain ⟨ids, stm, hbm, n, hids, hst, hhb, hn⟩ := hs.lookups hroom
      have hcilen : ci < clients.length := idxOf_lt_length hidx
      have hci : ci < ids.length := by
        rw [← hs.len_eq r clients ids hroom hids]
        exact hcilen
      have hpid : ids.get? ci = some (ids.get ⟨ci, hci⟩) := List.get?_eq_get hci
      rw [remove_eq s r ws clients ids ci (ids.get ⟨ci, hci⟩) stm hbm n hroom
        hidx hids hci hpid hst hhb hn]
      have idsnodup : ids.Nodup :=
        (hs.ids_sorted r ids hids).imp (fun hlt => Nat.ne_of_lt hlt)
      apply Inv_setRoom s r _ _ _ _ _ hs
      · have e1 := List.length_eraseIdx_add_one hcilen
        have e2 := List.length_eraseIdx_add_one hci
        have e3 := hs.len_eq r clients ids hroom hids
        omega
      · exact (hs.ids_sorted r ids hids).sublist (List.eraseIdx_sublist ids ci)
      · intro i hi
        exact hs.ids_bound r ids n hids hn i
          ((List.eraseIdx_sublist ids ci).subset hi)
      · intro p
        rw [akeys_apop, (hs.states_keys_nodup r stm hst).mem_erase_iff,
          mem_eraseIdx_iff_of_nodup idsnodup hpid]
        simp [hs.states_keys r ids stm hids hst p]
        tauto
      · intro p
        rw [akeys_apop, (hs.hb_keys_nodup r hbm hhb).mem_erase_iff,
          mem_eraseIdx_iff_of_nodup idsnodup hpid]
        simp [hs.hb_keys r ids hbm hids hhb p]
        tauto
      · exact nodup_akeys_apop _ (hs.states_keys_nodup r stm hst)
      · exact nodup_akeys_apop _ (hs.hb_keys_nodup r hbm hhb)
      · exact hs.next_pos r n hn

theorem Inv_update (s : ServerState) (r : String) (pid : Nat) (st : String)
    (now : Nat) (hs : Inv s) : Inv (updatePeerState s r pid st now) := by
  cases hst : afind r s.room_peer_states with
  | none =>
    rw [update_eq_none s r pid st now hst]
    exact hs
  | some stm =>
    cases hp : afind pid stm with
    | none =>
      rw [update_eq_absent s r pid st now stm hst hp]
      exact hs
    | some v =>
      have hsome : (afind r s.rooms).isSome = true :=
        (hs.keys_states r).2 (by rw [hst]; rfl)
      obtain ⟨clients, hroom⟩ := Option.isSome_iff_exists.1 hsome
      obtain ⟨ids, stm2, hbm, n, hids, hst2, hhb, hn⟩ := hs.lookups hroom
      rw [hst] at hst2
      injection hst2 with hst2
      subst hst2
      rw [update_eq s r pid st now v stm hbm hst hp hhb]
      have hpmem : pid ∈ akeys stm := by
        rw [← afind_isSome_iff]
        rw [hp]
        rfl
      have hpid : pid ∈ ids := (hs.states_keys r ids stm hids hst pid).1 hpmem
      have hpmemh : pid ∈ akeys hbm := (hs.hb_keys r ids hbm hids hhb pid).2 hpid
      have heq : ({ s with
          room_peer_states := aset r (aset pid st stm) s.room_peer_states,
          room_peer_last_heartbeat :=
            aset r (aset pid now hbm) s.room_peer_last_heartbeat } : ServerState) =
          setRoom s r clients ids (aset pid st stm) (aset pid now hbm) n := by
        simp [setRoom, aset_of_afind_eq hroom, aset_of_afind_eq hids,
          aset_of_afind_eq hn]
      rw [heq]
      apply Inv_setRoom s r _ _ _ _ _ hs
      · exact hs.len_eq r clients ids hroom hids
      · exact hs.ids_sorted r ids hids
      · exact hs.ids_bound r ids n hids hn
      · intro p
        rw [akeys_aset_of_mem _ hpmem]
        exact hs.states_keys r ids stm hids hst p
      · intro p
        rw [akeys_aset_of_mem _ hpmemh]
        exact hs.hb_keys r ids hbm hids hhb p
      · rw [akeys_aset_of_mem _ hpmem]
        exact hs.states_keys_nodup r stm hst
      · rw [akeys_aset_of_mem _ hpmemh]
        exact hs.hb_keys_nodup r hbm hhb
      · exact hs.next_pos r n hn

theorem relayCore_state (s : ServerState) (r : String) (msg : Inbound)
    (sender : Nat) (spid : Option Nat) (now : Nat) :
    (relayCore s r msg sender spid now).1 = s := by
  cases msg with
  | raw text => rfl
  | nonObj => rfl
  | obj ty toPeer rest =>
    by_cases h1 : ty = some "heartbeat"
    · cases spid with
      | none => simp [relayCore, h1]
      | some pid =>
        by_cases h0 : pid = 0 <;> simp [relayCore, h1, h0]
    · by_cases h2 : ty = some "get_peers"
      · simp only [relayCore, if_neg h1, if_pos h2]
        cases afind r s.room_peer_ids with
        | none => rfl
        | some ids =>
          cases afind r s.room_peer_states with
          | none => rfl
          | some stm => rfl
      · by_cases h3 : ty = some "new_peer_joined"
        · simp only [relayCore, if_neg h1, if_neg h2, if_pos h3]
          cases afind r s.room_peer_ids with
          | none => rfl
          | some ids =>
            cases afind r s.room_peer_states with
            | none => rfl
            | some stm => rfl
        · simp only [relayCore, if_neg h1, if_neg h2, if_neg h3]
          cases toPeer with
          | none => rfl
          | some t =>
            by_cases ht : t = 0 <;> simp [ht]

theorem relayMessage_state (s : ServerState) (r : String) (msg : Inbound)
    (sender now : Nat) : (relayMessage s r msg sender now).1 = s := by
  unfold relayMessage
  split
  · rfl
  · split
    · exact relayCore_state s r msg sender none now
    · split
      · rfl
      · exact relayCore_state s r msg sender _ now

theorem Inv_relay (s : ServerState) (r : String) (msg : Inbound)
    (sender now : Nat) (hs : Inv s) :
    Inv (relayMessage s r msg sender now).1 := by
  rw [relayMessage_state]
  exact hs

theorem removeDeadPeers_state (r : String) (l : List Nat) (s : ServerState) :
    (removeDeadPeers r l s).1 = s := by
  induction l generalizing s with
  | nil => rfl
  | cons pid rest ih =>
    unfold removeDeadPeers
    split
    · exact ih s
    · split
      · exact ih s
      · split
        · rfl
        · split
          · split
            · exact ih s
            · rfl
          · exact ih s

theorem sweepRooms_state (now : Nat) (l : List String) (s : ServerState) :
    (sweepRooms now l s).1 = s := by
  induction l generalizing s with
  | nil => rfl
  | cons r rest ih =>
    unfold sweepRooms
    split
    · exact ih s
    · dsimp only
      split
      · rw [ih, removeDeadPeers_state]
      · rw [removeDeadPeers_state]

theorem sweepTick_state (s : ServerState) (now : Nat) :
    (sweepTick s now).1 = s :=
  sweepRooms_state now (akeys s.rooms) s

theorem Inv_sweepTick (s : ServerState) (now : Nat) (hs : Inv s) :
    Inv (sweepTick s now).1 := by
  rw [sweepTick_state]
  exact hs

theorem Inv_step {s t : ServerState} (h : Step s t) (hs : Inv s) : Inv t := by
  cases h with
  | admitStep r ws now => exact Inv_add s r ws now hs
  | removal r ws => exact Inv_remove s r ws hs
  | stateUpdate r pid st now => exact Inv_update s r pid st now hs
  | relayStep r msg sender now => exact Inv_relay s r msg sender now hs
  | monitorTick now => exact Inv_sweepTick s now hs

theorem Reachable_Inv {s : ServerState} (h : Reachable s) : Inv s := by
  induction h with
  | refl => exact Inv_initState
  | tail _ h2 ih => exact Inv_step h2 ih

theorem add_eq_abort1 (s : ServerState) (r : String) (ws now : Nat)
    (clients : List Nat) (hroom : afind r s.rooms = some clients)
    (hlen : clients.length < 4) (hn : afind r s.next_peer_id = none) :
    addClientToRoom s r ws now = (s, none) := by
  unfold addClientToRoom
  simp [hroom, hn, Nat.not_le.2 hlen]

theorem add_eq_abort2 (s : ServerState) (r : String) (ws now : Nat)
    (clients : List Nat) (n : Nat) (hroom : afind r s.rooms = some clients)
    (hlen : clients.length < 4) (hn : afind r s.next_peer_id = some n)
    (hids : afind r s.room_peer_ids = none) :
    addClientToRoom s r ws now = (s, none) := by
  unfold addClientToRoom
  simp [hroom, hn, hids, Nat.not_le.2 hlen]

theorem add_eq_abort3 (s : ServerState) (r : String) (ws now : Nat)
    (clients ids : List Nat) (n : Nat) (hroom : afind r s.rooms = some clients)
    (hlen : clients.length < 4) (hn : afind r s.next_peer_id = some n)
    (hids : afind r s.room_peer_ids = some ids)
    (hst : afind r s.room_peer_states = none) :
    addClientToRoom s r ws now =
      ({ s with room_peer_ids := aset r (ids ++ [n]) s.room_peer_ids }, none) := by
  unfold addClientToRoom
  simp [hroom, hn, hids, hst, Nat.not_le.2 hlen]

theorem add_eq_abort4 (s : ServerState) (r : String) (ws now : Nat)
    (clients ids : List Nat) (n : Nat) (stm : List (Nat × String))
    (hroom : afind r s.rooms = some clients)
    (hlen : clients.length < 4) (hn : afind r s.next_peer_id = some n)
    (hids : afind r s.room_peer_ids = some ids)
    (hst : afind r s.room_peer_states = some stm)
    (hhb : afind r s.room_peer_last_heartbeat = none) :
    addClientToRoom s r ws now =
      ({ s with room_peer_ids := aset r (ids ++ [n]) s.room_peer_ids, room_peer_states := aset r (aset n "connecting" stm) s.room_peer_states }, none) := by
  unfold addClientToRoom
  simp [hroom, hn, hids, hst, hhb, Nat.not_le.2 hlen]

theorem add_success_next {s s' : ServerState} {r : String} {ws now a : Nat}
    (h : addClientToRoom s r ws now = (s', some a)) :
    afind r s'.next_peer_id = some (a + 1) ∧ (afind r s'.rooms).isSome = true := by
  cases hroom : afind r s.rooms with
  | none =>
    rw [add_eq_of_absent s r ws now hroom] at h
    simp only [Prod.mk.injEq, Option.some.injEq] at h
    obtain ⟨h1, h2⟩ := h
    subst h1
    subst h2
    constructor
    · simp [setRoom, afind_aset_self]
    · simp [setRoom, afind_aset_self]
  | some clients =>
    by_cases hcap : 4 ≤ clients.length
    · rw [add_eq_full s r ws now clients hroom hcap] at h
      simp at h
    · have hlen : clients.length < 4 := Nat.lt_of_not_le hcap
      cases hn : afind r s.next_peer_id with
      | none =>
        rw [add_eq_abort1 s r ws now clients hroom hlen hn] at h
        simp at h
      | some n =>
        cases hids : afind r s.room_peer_ids with
        | none =>
          rw [add_eq_abort2 s r ws now clients n hroom hlen hn hids] at h
          simp at h
        | some ids =>
          cases hst : afind r s.room_peer_states with
          | none =>
            rw [add_eq_abort3 s r ws now clients ids n hroom hlen hn hids hst] at h
            simp at h
          | some stm =>
            cases hhb : afind r s.room_peer_last_heartbeat with
            | none =>
              rw [add_eq_abort4 s r ws now clients ids n stm hroom hlen hn hids hst hhb] at h
              simp at h
            | some hbm =>
              rw [add_eq_of_present s r ws now clients ids n stm hbm hroom hlen
                hn hids hst hhb] at h
              simp only [Prod.mk.injEq, Option.some.injEq] at h
              obtain ⟨h1, h2⟩ := h
              subst h1
              subst h2
              constructor
              · simp [setRoom, afind_aset_self]
              · simp [setRoom, afind_aset_self]

theorem add_success_val {s s' : ServerState} {r : String} {ws now b : Nat}
    {clients : List Nat} (hroom : afind r s.rooms = some clients)
    (h : addClientToRoom s r ws now = (s', some b)) :
    afind r s.next_peer_id = some b := by
  by_cases hcap : 4 ≤ clients.length
  · rw [add_eq_full s r ws now clients hroom hcap] at h
    simp at h
  · have hlen : clients.length < 4 := Nat.lt_of_not_le hcap
    cases hn : afind r s.next_peer_id with
    | none =>
      rw [add_eq_abort1 s r ws now clients hroom hlen hn] at h
      simp at h
    | some n =>
      cases hids : afind r s.room_peer_ids with
      | none =>
        rw [add_eq_abort2 s r ws now clients n hroom hlen hn hids] at h
        simp at h
      | some ids =>
        cases hst : afind r s.room_peer_states with
        | none =>
          rw [add_eq_abort3 s r ws now clients ids n hroom hlen hn hids hst] at h
          simp at h
        | some stm =>
          cases hhb : afind r s.room_peer_last_heartbeat with
          | none =>
            rw [add_eq_abort4 s r ws now clients ids n stm hroom hlen hn hids hst hhb] at h
            simp at h
          | some hbm =>
            rw [add_eq_of_present s r ws now clients ids n stm hbm hroom hlen
              hn hids hst hhb] at h
            simp only [Prod.mk.injEq, Option.some.injEq] at h
            rw [h.2]

theorem add_next_mono_self (s : ServerState) (r : String) (ws now n : Nat)
    (hs : Inv s) (h : afind r s.next_peer_id = some n) :
    ∃ m, afind r (addClientToRoom s r ws now).1.next_peer_id = some m ∧
      n ≤ m := by
  have hroomS : (afind r s.rooms).isSome = true :=
    (hs.keys_next r).2 (by rw [h]; rfl)
  obtain ⟨clients, hroom⟩ := Option.isSome_iff_exists.1 hroomS
  obtain ⟨ids, stm, hbm, n2, hids, hst, hhb, hn⟩ := hs.lookups hroom
  have hnn : n2 = n := by
    rw [hn] at h
    injection h
  subst hnn
  by_cases hcap : 4 ≤ clients.length
  · rw [add_eq_full s r ws now clients hroom hcap]
    exact ⟨n2, hn, le_refl n2⟩
  · rw [add_eq_of_present s r ws now clients ids n2 stm hbm hroom
      (Nat.lt_of_not_le hcap) hn hids hst hhb]
    refine ⟨n2 + 1, ?_, Nat.le_succ n2⟩
    simp [setRoom, afind_aset_self]

theorem remove_next_mono (s : ServerState) (r : String) (ws : Nat)
    (hs : Inv s) :
    afind r (removeClientFromRoom s r ws).1.next_peer_id =
      afind r s.next_peer_id := by
  cases hroom : afind r s.rooms with
  | none => rw [remove_eq_absent s r ws hroom]
  | some clients =>
    cases hidx : idxOf ws clients with
    | none => rw [remove_eq_notmem s r ws clients hroom hidx]
    | some ci =>
      obtain ⟨ids, stm, hbm, n, hids, hst, hhb, hn⟩ := hs.lookups hroom
      have hcilen : ci < clients.length := idxOf_lt_length hidx
      have hci : ci < ids.length := by
        rw [← hs.len_eq r clients ids hroom hids]
        exact hcilen
      have hpid : ids.get? ci = some (ids.get ⟨ci, hci⟩) := List.get?_eq_get hci
      rw [remove_eq s r ws clients ids ci (ids.get ⟨ci, hci⟩) stm hbm n hroom
        hidx hids hci hpid hst hhb hn]
      rw [show (setRoom s r (clients.eraseIdx ci) (ids.eraseIdx ci)
        (apop (ids.get ⟨ci, hci⟩) stm) (apop (ids.get ⟨ci, hci⟩) hbm) n, [],
        false).1.next_peer_id = aset r n s.next_peer_id from rfl]
      rw [afind_aset_self, hn]

theorem reachKeep_next_mono {r : String} {s3 s4 : ServerState}
    (h : ReachKeep r s3 s4) (hs : Inv s3) {m : Nat}
    (hm : afind r s3.next_peer_id = some m) :
    Inv s4 ∧ ∃ m2, afind r s4.next_peer_id = some m2 ∧ m ≤ m2 := by
  induction h with
  | refl => exact ⟨hs, m, hm, le_refl m⟩
  | tail _ hstep ih =>
    obtain ⟨hInv3, m2, hm2, hle⟩ := ih
    obtain ⟨hop, hsomeEnd⟩ := hstep
    cases hop with
    | admitOp ws now =>
      obtain ⟨m3, hm3, hle2⟩ := add_next_mono_self _ r ws now m2 hInv3 hm2
      exact ⟨Inv_add _ r ws now hInv3, m3, hm3, le_trans hle hle2⟩
    | removeOp ws =>
      refine ⟨Inv_remove _ r ws hInv3, m2, ?_, hle⟩
      rw [remove_next_mono _ r ws hInv3]
      exact hm2

theorem add_success_shape {s s2 : ServerState} {r : String} {ws now pid : Nat}
    (h : addClientToRoom s r ws now = (s2, some pid)) :
    ∃ (clients ids : List Nat) (stm : List (Nat × String))
      (hbm : List (Nat × Nat)),
      s2 = setRoom s r (clients ++ [ws]) (ids ++ [pid])
        (aset pid "connecting" stm) (aset pid now hbm) (pid + 1) := by
  cases hroom : afind r s.rooms with
  | none =>
    rw [add_eq_of_absent s r ws now hroom] at h
    simp only [Prod.mk.injEq, Option.some.injEq] at h
    obtain ⟨h1, h2⟩ := h
    subst h1
    subst h2
    exact ⟨[], [], [], [], rfl⟩
  | some clients =>
    by_cases hcap : 4 ≤ clients.length
    · rw [add_eq_full s r ws now clients hroom hcap] at h
      simp at h
    · have hlen : clients.length < 4 := Nat.lt_of_not_le hcap
      cases hn : afind r s.next_peer_id with
      | none =>
        rw [add_eq_abort1 s r ws now clients hroom hlen hn] at h
        simp at h
      | some n =>
        cases hids : afind r s.room_peer_ids with
        | none =>
          rw [add_eq_abort2 s r ws now clients n hroom hlen hn hids] at h
          simp at h
        | some ids =>
          cases hst : afind r s.room_peer_states with
          | none =>
            rw [add_eq_abort3 s r ws now clients ids n hroom hlen hn hids hst] at h
            simp at h
          | some stm =>
            cases hhb : afind r s.room_peer_last_heartbeat with
            | none =>
              rw [add_eq_abort4 s r ws now clients ids n stm hroom hlen hn hids hst hhb] at h
              simp at h
            | some hbm =>
              rw [add_eq_of_present s r ws now clients ids n stm hbm hroom hlen
                hn hids hst hhb] at h
              simp only [Prod.mk.injEq, Option.some.injEq] at h
              obtain ⟨h1, h2⟩ := h
              subst h1
              subst h2
              exact ⟨clients, ids, stm, hbm, rfl⟩

/-- C1: for a room whose peer collection is at capacity (4 clients), the
next admission attempt fails (`add_client_to_room` returns `None`,
surfaced by `websocket_endpoint` to the rejected client as the structured
`ROOM_FULL` error before closing), and the entire registry state — all five
dictionaries, hence the room's peer collection, peer-id list, and per-peer
state/heartbeat maps — is unchanged. -/
theorem capacity_rejects_admission (s : ServerState) (r : String)
    (ws now : Nat) (clients : List Nat)
    (h : afind r s.rooms = some clients) (hlen : clients.length = 4) :
    addClientToRoom s r ws now = (s, none) ∧
    wsConnect s r ws now =
      (s, [Event.sent ws (Outbound.errorMsg "ROOM_FULL" "Room is full"),
        Event.closed ws], none) := by
  have hcap : (4 : Nat) ≤ clients.length := by omega
  have hadd := add_eq_full s r ws now clients h hcap
  refine ⟨hadd, ?_⟩
  unfold wsConnect
  rw [hadd]

theorem capacity_rejects_admission_witness :
    afind "r1" fullRoom.rooms = some [5, 6, 7, 8] ∧
    addClientToRoom fullRoom "r1" 9 50 = (fullRoom, none) := by
  refine ⟨by decide, ?_⟩
  exact (capacity_rejects_admission fullRoom "r1" 9 50 [5, 6, 7, 8]
    (by decide) (by decide)).1

/-- C2: in any reachable state the id list of every room is strictly
increasing in join order — so no two simultaneously-present peers of a room
share an id — and along any further sequence of admissions/removals on the
room during which the room survives, a later successful admission returns a
strictly larger id than an earlier one: a departed id is never reassigned
while the room exists. -/
theorem peer_ids_unique_and_monotone (s : ServerState)
    (hreach : Reachable s) :
    (∀ (r : String) (ids : List Nat), afind r s.room_peer_ids = some ids →
      ids.Pairwise (· < ·) ∧ ids.Nodup) ∧
    (∀ (r : String) (ws now : Nat) (s2 : ServerState) (a : Nat),
      addClientToRoom s r ws now = (s2, some a) →
      ∀ s3 : ServerState, ReachKeep r s2 s3 →
      ∀ (ws2 now2 : Nat) (s4 : ServerState) (b : Nat),
        addClientToRoom s3 r ws2 now2 = (s4, some b) → a < b) := by
  have hs := Reachable_Inv hreach
  constructor
  · intro r ids hids
    have hsorted := hs.ids_sorted r ids hids
    exact ⟨hsorted, hsorted.imp (fun hlt => Nat.ne_of_lt hlt)⟩
  · intro r ws now s2 a h1 s3 hkeep ws2 now2 s4 b h2
    obtain ⟨hnext2, hroom2⟩ := add_success_next h1
    have hInv2 : Inv s2 := by
      have he : (addClientToRoom s r ws now).1 = s2 := by rw [h1]
      rw [← he]
      exact Inv_add s r ws now hs
    obtain ⟨hInv3, m2, hm2, hle⟩ := reachKeep_next_mono hkeep hInv2 hnext2
    have hroom3 : ∃ clients3, afind r s3.rooms = some clients3 := by
      rcases Relation.ReflTransGen.cases_tail hkeep with heq | ⟨c, _, hlast⟩
      · subst heq
        exact Option.isSome_iff_exists.1 hroom2
      · exact Option.isSome_iff_exists.1 hlast.2
    obtain ⟨clients3, hroom3⟩ := hroom3
    have hval := add_success_val hroom3 h2
    rw [hm2] at hval
    injection hval with hval
    omega

theorem peer_ids_unique_and_monotone_witness :
    (addClientToRoom initState "r1" 5 0).2 = some 1 ∧
    (addClientToRoom (addClientToRoom initState "r1" 5 0).1 "r1" 6 0).2 =
      some 2 ∧ 1 < 2 := by
  refine ⟨by decide, by decide, ?_⟩
  exact (peer_ids_unique_and_monotone initState Relation.ReflTransGen.refl).2
    "r1" 5 0 (addClientToRoom initState "r1" 5 0).1 1 (by rfl)
    (addClientToRoom initState "r1" 5 0).1 Relation.ReflTransGen.refl
    6 0 (addClientToRoom (addClientToRoom initState "r1" 5 0).1 "r1" 6 0).1 2
    (by rfl)

/-- C3 counterexample: starting from the module-load state, one admission
into "r1" creates the room; removing that sole client then empties the
client list but leaves the room record — and all five per-room dictionary
entries — in place, because `remove_client_from_room` deadlocks on its
nested `room_lock` acquisition inside `notify_peer_disconnection` (line 92)
before ever reaching the empty-room cleanup of lines 97-108.  So the
claim's "the removal that takes the peer collection to empty deletes the
room record within that same removal operation" is false at this input. -/
theorem last_peer_removal_leaves_room_cex :
    afind "r1" ((addClientToRoom initState "r1" 5 0).1).rooms = some [5] ∧
    afind "r1"
      (removeClientFromRoom (addClientToRoom initState "r1" 5 0).1 "r1" 5).1.rooms
      = some [] ∧
    afind "r1"
      (removeClientFromRoom (addClientToRoom initState "r1" 5 0).1 "r1" 5).1.next_peer_id
      = some 2 ∧
    (removeClientFromRoom (addClientToRoom initState "r1" 5 0).1 "r1" 5).2.2
      = false := by
  exact ⟨by decide, by decide, by decide, by decide⟩

/-- C3 amended: a room id comes into existence on the first admission naming
it (the room record then holds exactly the admitted websocket), but no
removal ever deletes it: in any reachable state, removing a room's last
client leaves the room record present with an empty client list, sends no
departure notification, and never returns — the call hangs re-acquiring the
non-reentrant `room_lock` inside `notify_peer_disconnection`
(`broadcast_to_room`, line 230) before the empty-room cleanup of lines
97-108 can run.  Empty room records therefore linger (the source's `/`
route even advertises a cleanup of them as a separate repair action). -/
theorem room_created_but_never_deleted (s : ServerState) (hreach : Reachable s)
    (r : String) (w : Nat) (hroom : afind r s.rooms = some [w]) :
    (∀ (t : ServerState) (r2 : String) (ws now : Nat),
      afind r2 t.rooms = none →
      afind r2 (addClientToRoom t r2 ws now).1.rooms = some [ws]) ∧
    afind r (removeClientFromRoom s r w).1.rooms = some [] ∧
    afind r (removeClientFromRoom s r w).1.next_peer_id =
      afind r s.next_peer_id ∧
    (removeClientFromRoom s r w).2.1 = [] ∧
    (removeClientFromRoom s r w).2.2 = false := by
  have hs := Reachable_Inv hreach
  refine ⟨?_, ?_⟩
  · intro t r2 ws now h0
    unfold addClientToRoom initRoomMaps
    simp [h0, afind_aset_self]
  obtain ⟨ids, stm, hbm, n, hids, hst, hhb, hn⟩ := hs.lookups hroom
  have hidx : idxOf w [w] = some 0 := by simp [idxOf]
  have hlen : ([w] : List Nat).length = ids.length :=
    hs.len_eq r [w] ids hroom hids
  have hone : ids.length = 1 := by simpa using hlen.symm
  have hci : 0 < ids.length := by omega
  have hpid : ids.get? 0 = some (ids.get ⟨0, hci⟩) := List.get?_eq_get hci
  rw [remove_eq s r w [w] ids 0 (ids.get ⟨0, hci⟩) stm hbm n hroom hidx hids
    hci hpid hst hhb hn]
  refine ⟨?_, ?_, rfl, rfl⟩
  · simp [setRoom, afind_aset_self]
  · rw [show (setRoom s r (([w] : List Nat).eraseIdx 0) (ids.eraseIdx 0)
      (apop (ids.get ⟨0, hci⟩) stm) (apop (ids.get ⟨0, hci⟩) hbm) n,
      ([] : List (Nat × Outbound)), false).1.next_peer_id =
      aset r n s.next_peer_id from rfl]
    rw [afind_aset_self, hn]

theorem room_created_but_never_deleted_witness :
    afind "r1" ((addClientToRoom initState "r1" 5 0).1).rooms = some [5] ∧
    afind "r1"
      (removeClientFromRoom (addClientToRoom initState "r1" 5 0).1 "r1" 5).1.rooms
      = some [] := by
  refine ⟨by decide, ?_⟩
  exact (room_created_but_never_deleted (addClientToRoom initState "r1" 5 0).1
    (Relation.ReflTransGen.single (Step.admitStep initState "r1" 5 0)) "r1"
    5 (by decide)).2.1

/-- C10: in every reachable state the five per-room dictionaries have
identical sets of room keys; for each room the connection list and the
peer-id list have equal length (the peer at index i owns the id at index i),
and the key sets of the peer-state and last-heartbeat dictionaries both
equal the set of ids in the peer-id list. -/
theorem registry_maps_aligned (s : ServerState) (hreach : Reachable s) :
    (∀ r : String,
      ((afind r s.rooms).isSome = true ↔
        (afind r s.room_peer_ids).isSome = true) ∧
      ((afind r s.rooms).isSome = true ↔
        (afind r s.room_peer_states).isSome = true) ∧
      ((afind r s.rooms).isSome = true ↔
        (afind r s.room_peer_last_heartbeat).isSome = true) ∧
      ((afind r s.rooms).isSome = true ↔
        (afind r s.next_peer_id).isSome = true)) ∧
    (∀ (r : String) (clients ids : List Nat), afind r s.rooms = some clients →
      afind r s.room_peer_ids = some ids → clients.length = ids.length) ∧
    (∀ (r : String) (ids : List Nat) (m : List (Nat × String)),
      afind r s.room_peer_ids = some ids →
      afind r s.room_peer_states = some m →
      ∀ p : Nat, p ∈ akeys m ↔ p ∈ ids) ∧
    (∀ (r : String) (ids : List Nat) (m : List (Nat × Nat)),
      afind r s.room_peer_ids = some ids →
      afind r s.room_peer_last_heartbeat = some m →
      ∀ p : Nat, p ∈ akeys m ↔ p ∈ ids) := by
  have hs := Reachable_Inv hreach
  exact ⟨fun r => ⟨hs.keys_ids r, hs.keys_states r, hs.keys_hb r,
    hs.keys_next r⟩, hs.len_eq, hs.states_keys, hs.hb_keys⟩

theorem registry_maps_aligned_witness :
    (afind "r1" ((addClientToRoom initState "r1" 5 0).1).rooms).isSome = true ∧
    ((afind "r1" ((addClientToRoom initState "r1" 5 0).1).rooms).isSome = true ↔
      (afind "r1" ((addClientToRoom initState "r1" 5 0).1).room_peer_ids).isSome
        = true) := by
  refine ⟨by decide, ?_⟩
  exact (((registry_maps_aligned (addClientToRoom initState "r1" 5 0).1
    (Relation.ReflTransGen.single (Step.admitStep initState "r1" 5 0))).1
    "r1").1)

/-- C4: in the Star-mode removal modelled from the spec (Star mode has no
code under src), removing the host peer (id 1) sends every remaining peer an
explanatory frame, force-closes every remaining connection, and deletes the
room record from all five dictionaries within the one operation — no peer
record of the room survives. -/
theorem star_host_teardown (s : ServerState) (r : String) (ws ci : Nat)
    (clients ids : List Nat)
    (hnd1 : (akeys s.rooms).Nodup)
    (hnd2 : (akeys s.room_peer_ids).Nodup)
    (hnd3 : (akeys s.room_peer_states).Nodup)
    (hnd4 : (akeys s.room_peer_last_heartbeat).Nodup)
    (hnd5 : (akeys s.next_peer_id).Nodup)
    (hroom : afind r s.rooms = some clients)
    (hids : afind r s.room_peer_ids = some ids)
    (hidx : idxOf ws clients = some ci)
    (hhost : ids.get? ci = some 1) :
    afind r (removeClientStar s r ws).1.rooms = none ∧
    afind r (removeClientStar s r ws).1.room_peer_ids = none ∧
    afind r (removeClientStar s r ws).1.room_peer_states = none ∧
    afind r (removeClientStar s r ws).1.room_peer_last_heartbeat = none ∧
    afind r (removeClientStar s r ws).1.next_peer_id = none ∧
    ∀ c ∈ clients.eraseIdx ci,
      Event.sent c Outbound.hostLeft ∈ (removeClientStar s r ws).2 ∧
      Event.closed c ∈ (removeClientStar s r ws).2 := by
  have hstar : removeClientStar s r ws =
      (eraseRoomAll r s,
       (clients.eraseIdx ci).map (fun c => Event.sent c Outbound.hostLeft) ++
         (clients.eraseIdx ci).map Event.closed) := by
    have hhost2 : ids[ci]? = some 1 := by
      rw [← List.get?_eq_getElem?]
      exact hhost
    unfold removeClientStar
    simp [hroom, hids, hidx, hhost2]
  rw [hstar]
  refine ⟨afind_apop_self r hnd1, afind_apop_self r hnd2,
    afind_apop_self r hnd3, afind_apop_self r hnd4,
    afind_apop_self r hnd5, ?_⟩
  intro c hc
  constructor
  · exact List.mem_append_left _ (List.mem_map_of_mem _ hc)
  · exact List.mem_append_right _ (List.mem_map_of_mem _ hc)

theorem star_host_teardown_witness :
    afind "r1" staleRoom.rooms = some [5, 6] ∧
    afind "r1" (removeClientStar staleRoom "r1" 5).1.rooms = none := by
  refine ⟨by decide, ?_⟩
  exact (star_host_teardown staleRoom "r1" 5 0 [5, 6] [1, 2] (by decide)
    (by decide) (by decide) (by decide) (by decide) (by decide) (by decide)
    (by decide) (by decide)).1

/-- C5 counterexample: in the 4-member room of `fullRoom`, a JSON-object
message of non-control type with no `to_peer_id` is delivered to no one at
all — not to the other 3 peers: `relay_message` holds `room_lock` from line
136 and the broadcast path awaits `broadcast_to_room`, which re-acquires
the same non-reentrant lock at line 230 and blocks forever before any send.
The claim's "delivered to exactly the other 3 peers" is false at this
input. -/
theorem mesh_broadcast_undelivered_cex :
    afind "r1" fullRoom.rooms = some [5, 6, 7, 8] ∧
    relayMessage fullRoom "r1" (Inbound.obj (some "offer") none "x") 5 0 =
      (fullRoom, [], false) := by
  exact ⟨by decide, by decide⟩

/-- C5 amended: in a 4-member mesh room, a JSON-object message whose type is
none of the three recognized control types and which carries no
`to_peer_id` is delivered to no peer at all, and the relay call never
returns: holding `room_lock` (line 136), it awaits `broadcast_to_room`,
whose acquisition of the same non-reentrant lock (line 230) deadlocks
before the send loop.  The registry state is unchanged. -/
theorem mesh_broadcast_hangs (s : ServerState) (r : String)
    (clients ids : List Nat) (i sender now : Nat) (ty : Option String)
    (rest : String)
    (hc : afind r s.rooms = some clients) (hlen : clients.length = 4)
    (hnd : clients.Nodup)
    (hids : afind r s.room_peer_ids = some ids)
    (hsender : clients.get? i = some sender)
    (ht1 : ty ≠ some "heartbeat") (ht2 : ty ≠ some "get_peers")
    (ht3 : ty ≠ some "new_peer_joined") :
    relayMessage s r (Inbound.obj ty none rest) sender now =
      (s, [], false) := by
  have hidx : idxOf sender clients = some i := idxOf_get_of_nodup hnd hsender
  unfold relayMessage relayCore
  simp [hc, hids, hidx, ht1, ht2, ht3]

theorem mesh_broadcast_hangs_witness :
    afind "r1" fullRoom.rooms = some [5, 6, 7, 8] ∧
    relayMessage fullRoom "r1" (Inbound.obj (some "offer") none "x") 5 0 =
      (fullRoom, [], false) := by
  refine ⟨by decide, ?_⟩
  exact mesh_broadcast_hangs fullRoom "r1" [5, 6, 7, 8] [1, 2, 3, 4] 0 5 0
    (some "offer") "x" (by decide) (by decide) (by decide) (by decide)
    (by decide) (by decide) (by decide) (by decide)

/-- C6 counterexample: in the two-peer room of `staleRoom` a non-control
message carrying `to_peer_id` 2 names a present peer (id 2 on websocket 6),
yet the relay delivers nothing to anyone and never returns:
`relay_message` holds `room_lock` from line 136 and `send_to_peer`
re-acquires the same non-reentrant lock at line 244, blocking before the
target lookup and send.  The claim's "delivers the message only to the peer
with id X" (i.e. that X does receive it) is false at this input. -/
theorem directed_message_undelivered_cex :
    afind "r1" staleRoom.room_peer_ids = some [1, 2] ∧
    relayMessage staleRoom "r1" (Inbound.obj (some "offer") (some 2) "x")
      5 100 = (staleRoom, [], false) := by
  exact ⟨by decide, by decide⟩

/-- C6 amended: a non-control message carrying `to_peer_id` with any value X
— present peer, absent peer, or the falsy 0 that falls through to the
broadcast branch — is delivered to no one, and the relay call never
returns: both `send_to_peer` (line 244) and `broadcast_to_room` (line 230)
re-acquire the non-reentrant `room_lock` already held at line 136 and
deadlock before any presence check or send.  The registry state is
unchanged. -/
theorem directed_relay_hangs (s : ServerState) (r : String)
    (clients ids : List Nat) (i sender now X : Nat) (ty : Option String)
    (rest : String)
    (hc : afind r s.rooms = some clients) (hnd : clients.Nodup)
    (hids : afind r s.room_peer_ids = some ids)
    (hsender : clients.get? i = some sender)
    (ht1 : ty ≠ some "heartbeat") (ht2 : ty ≠ some "get_peers")
    (ht3 : ty ≠ some "new_peer_joined") :
    relayMessage s r (Inbound.obj ty (some X) rest) sender now =
      (s, [], false) := by
  have hidx : idxOf sender clients = some i := idxOf_get_of_nodup hnd hsender
  unfold relayMessage relayCore
  by_cases hX : X = 0 <;> simp [hc, hids, hidx, ht1, ht2, ht3, hX]

theorem directed_relay_hangs_witness :
    ((2 : Nat) ∈ [1, 2]) ∧
    relayMessage staleRoom "r1" (Inbound.obj (some "offer") (some 2) "x")
      5 100 = (staleRoom, [], false) := by
  refine ⟨by decide, ?_⟩
  exact directed_relay_hangs staleRoom "r1" [5, 6] [1, 2] 0 5 100 2
    (some "offer") "x" (by decide) (by decide) (by decide) (by decide)
    (by decide) (by decide) (by decide)

/-- C7 counterexample: in `staleRoom` at time 100, peer 1's heartbeat (at
time 0) is more than 60 seconds old, so the liveness tick force-closes its
websocket 5 — and then hangs: the tick holds `room_lock` from line 263 and
`remove_client_from_room` re-acquires the same non-reentrant lock at line
73, so the peer is never removed from any dictionary and no departure
notification is sent.  The claim's "then performs exactly
`remove_client_from_room` — the same removal operation as an explicit
disconnect" is false at this input: the registry is left unchanged. -/
theorem sweep_eviction_incomplete_cex :
    deadPeersOf [(1, 0), (2, 100)] 100 = [1] ∧
    sweepTick staleRoom 100 = (staleRoom, [Event.closed 5], TickExit.hung) := by
  exact ⟨by decide, by decide⟩

/-- C7 amended: with one room whose heartbeat table marks exactly one peer
as dead (heartbeat older than 60 seconds at sweep time), one liveness tick
force-closes that peer's websocket and then deadlocks: holding `room_lock`
since line 263, it awaits `remove_client_from_room`, whose acquisition of
the same non-reentrant lock at line 73 blocks forever.  The dead peer stays
in every dictionary, no departure notification goes out, and the tick never
returns — eviction is not the explicit-disconnect removal, it is a bare
socket close with the registry left unchanged. -/
theorem sweep_closes_but_never_removes (s : ServerState) (r : String)
    (now : Nat) (hbm : List (Nat × Nat)) (ids clients : List Nat) (p i w : Nat)
    (hkeys : akeys s.rooms = [r])
    (hhb : afind r s.room_peer_last_heartbeat = some hbm)
    (hdead : deadPeersOf hbm now = [p])
    (hids : afind r s.room_peer_ids = some ids)
    (hidx : idxOf p ids = some i)
    (hroom : afind r s.rooms = some clients)
    (hw : clients.get? i = some w) :
    sweepTick s now = (s, [Event.closed w], TickExit.hung) := by
  have hilen : i < clients.length := by
    obtain ⟨hl, _⟩ := List.get?_eq_some.1 hw
    exact hl
  have hw2 : clients[i]? = some w := by
    rw [← List.get?_eq_getElem?]
    exact hw
  unfold sweepTick
  rw [hkeys]
  simp [sweepRooms, removeDeadPeers, hhb, hdead, hids, hidx, hroom, hilen,
    hw, hw2]

theorem sweep_closes_but_never_removes_witness :
    deadPeersOf [(1, 0), (2, 100)] 100 = [1] ∧
    sweepTick staleRoom 100 = (staleRoom, [Event.closed 5], TickExit.hung) := by
  refine ⟨by decide, ?_⟩
  exact sweep_closes_but_never_removes staleRoom "r1" 100 [(1, 0), (2, 100)]
    [1, 2] [5, 6] 1 0 5 (by decide) (by decide) (by decide) (by decide)
    (by decide) (by decide) (by decide)

/-- C8 counterexample: the connection handler sets the newly admitted
peer's state to "connected" immediately after admission (line 502 of the
source), before the welcome frame is sent and before any traffic has been
received from the peer — `wsConnect` models exactly the pre-receive-loop
part of `websocket_endpoint` — so the claim that the state remains
Connecting until the first received application/heartbeat message is false
at this input. -/
theorem connected_before_traffic_cex :
    (wsConnect initState "r1" 7 0).2.2 = some 1 ∧
    afind 1 ((afind "r1"
      (wsConnect initState "r1" 7 0).1.room_peer_states).getD [])
      = some "connected" := by
  exact ⟨by decide, by decide⟩

/-- C8 amended: every admitted peer's state is "connecting" at the moment
`add_client_to_room` returns, and the connection handler itself promotes it
to "connected" immediately afterwards (line 502) — before the welcome frame
and before any traffic from the peer.  (The line-502 call runs lock-free in
the endpoint, unlike the relay's heartbeat path, which deadlocks on the
held `room_lock`.) -/
theorem connecting_at_admission_connected_after (s s2 : ServerState)
    (r : String) (ws now pid : Nat)
    (h : addClientToRoom s r ws now = (s2, some pid)) :
    afind pid ((afind r s2.room_peer_states).getD []) = some "connecting" ∧
    afind pid ((afind r (wsConnect s r ws now).1.room_peer_states).getD [])
      = some "connected" := by
  obtain ⟨clients, ids, stm, hbm, hshape⟩ := add_success_shape h
  subst hshape
  constructor
  · simp [setRoom, afind_aset_self]
  · unfold wsConnect
    rw [h]
    simp [updatePeerState, setRoom, afind_aset_self, aset_aset]

theorem connecting_at_admission_connected_after_witness :
    (addClientToRoom initState "r1" 7 0).2 = some 1 ∧
    afind 1 ((afind "r1"
      ((addClientToRoom initState "r1" 7 0).1).room_peer_states).getD [])
      = some "connecting" := by
  refine ⟨by decide, ?_⟩
  exact (connecting_at_admission_connected_after initState
    (addClientToRoom initState "r1" 7 0).1 "r1" 7 0 1 (by rfl)).1

/-- C9 counterexample: admitting a second client (websocket 6) into room
"r1", which already holds the peer on websocket 5, emits only the welcome
frame to the new client — the admission path sends nothing at all to the
existing peer — so the claim that the admission operation itself notifies
existing peers of the join is false at this input. -/
theorem admission_sends_no_join_notification_cex :
    afind "r1" ((wsConnect initState "r1" 5 0).1).rooms = some [5] ∧
    (wsConnect (wsConnect initState "r1" 5 0).1 "r1" 6 0).2.2 = some 2 ∧
    (wsConnect (wsConnect initState "r1" 5 0).1 "r1" 6 0).2.1 =
      [Event.sent 6 (Outbound.welcome 2 "r1")] := by
  exact ⟨by decide, by decide, by decide⟩

/-- C9 amended: no join notification ever reaches an existing peer.  The
admission path itself (`websocket_endpoint` lines 484-516) sends frames
only to the joining websocket — the ROOM_FULL error plus a close, or the
welcome — and never to an already-present peer.  And the only candidate
announcement, a `new_peer_joined` control message from the newly joined
client, is never delivered either: its broadcast awaits
`broadcast_to_room`, which re-acquires the non-reentrant `room_lock`
already held by `relay_message` since line 136 and deadlocks before any
send, leaving the registry unchanged. -/
theorem join_notification_never_delivered (s : ServerState) (r : String)
    (clients ids : List Nat) (stm : List (Nat × String))
    (i sender now : Nat) (toPeer : Option Nat) (rest : String)
    (ws now2 : Nat)
    (hc : afind r s.rooms = some clients) (hnd : clients.Nodup)
    (hids : afind r s.room_peer_ids = some ids)
    (hst : afind r s.room_peer_states = some stm)
    (hsender : clients.get? i = some sender) :
    (∀ ev ∈ (wsConnect s r ws now2).2.1,
      (∃ m, ev = Event.sent ws m) ∨ ev = Event.closed ws) ∧
    relayMessage s r (Inbound.obj (some "new_peer_joined") toPeer rest)
      sender now = (s, [], false) := by
  have hidx : idxOf sender clients = some i := idxOf_get_of_nodup hnd hsender
  constructor
  · intro ev hev
    unfold wsConnect at hev
    split at hev
    · simp at hev
      rcases hev with hev | hev
      · exact Or.inl ⟨_, hev⟩
      · exact Or.inr hev
    · simp at hev
      exact Or.inl ⟨_, hev⟩
  · unfold relayMessage relayCore
    simp [hc, hids, hidx, hst]

theorem join_notification_never_delivered_witness :
    afind "r1" staleRoom.rooms = some [5, 6] ∧
    relayMessage staleRoom "r1"
      (Inbound.obj (some "new_peer_joined") none "x") 5 100 =
      (staleRoom, [], false) := by
  refine ⟨by decide, ?_⟩
  exact (join_notification_never_delivered staleRoom "r1" [5, 6] [1, 2]
    [(1, "connected"), (2, "connected")] 0 5 100 none "x" 9 0 (by decide)
    (by decide) (by decide) (by decide) (by decide)).2

end SignalSrv

